import Mathlib

/-!
Verification development for the DL_PyTorch notebooks: a shallow embedding of
the feed-forward classifier, its training loop, and the checkpoint
save/load logic, with theorems settling the specification's claims.

Numeric values (tensor entries, losses, learning rates) are modelled over ℚ;
tensors are lists (vectors) and lists of lists (matrices).
-/

namespace DLPyTorch

/-! ## Vectors and matrices over ℚ -/

/-- Dot product of two rational vectors (missing tail entries count as 0). -/
def dotQ : List ℚ → List ℚ → ℚ
  | [], _ => 0
  | _, [] => 0
  | a :: as, b :: bs => a * b + dotQ as bs

/-- A fully-connected (affine) layer, mirroring `nn.Linear(in_features,
out_features)`: a weight matrix of `outF` rows of length `inF` and a bias
vector of length `outF`. -/
structure Linear where
  inF : Nat
  outF : Nat
  weight : List (List ℚ)
  bias : List ℚ
  deriving DecidableEq

/-- Well-formedness of a linear layer: the weight is an `outF × inF` matrix
and the bias has length `outF`. -/
def linWF (l : Linear) : Bool :=
  l.weight.length == l.outF
    && l.weight.all (fun r => r.length == l.inF)
    && l.bias.length == l.outF

/-- Matrix–vector product: one dot product per weight row. -/
def matVec (w : List (List ℚ)) (x : List ℚ) : List ℚ :=
  w.map (fun r => dotQ r x)

/-- Apply a linear layer to a single input vector: `W x + b`. -/
def linApply (l : Linear) (x : List ℚ) : List ℚ :=
  List.zipWith (· + ·) (matVec l.weight x) l.bias

/-- Componentwise rectified linear unit, mirroring `nn.ReLU`. -/
def reluV (x : List ℚ) : List ℚ :=
  x.map (fun a => max a 0)

/-- A linear layer of the given dimensions whose parameters are all zero;
stands in for framework parameter initialisation (the actual initial values
are random in the source and are never observed by any claim: they are
either overwritten by `load_state_dict` or quantified over). -/
def zeroLinear (i o : Nat) : Linear :=
  ⟨i, o, List.replicate o (List.replicate i 0), List.replicate o 0⟩

/-! ## The `nn.Sequential` classifier of Part 3 (part_000)

The source builds `nn.Sequential(OrderedDict([('fc1', Linear(input_size,
hidden_sizes[0])), ('relu1', ReLU()), ('fc2', Linear(hidden_sizes[0],
hidden_sizes[1])), ('relu2', ReLU()), ('logits', Linear(hidden_sizes[1],
output_size))]))`.  We model a sequential module as an ordered list of
layers folded over the input, exactly as `nn.Sequential` applies its
children in order. -/

/-- One child module of an `nn.Sequential` stack. -/
inductive Layer where
  | linear (l : Linear)
  | relu
  deriving DecidableEq

/-- Apply one layer to a batch (a list of row vectors).  An `nn.Linear`
raises a shape error when an input row's length differs from `in_features`;
this is modelled by returning `none`. -/
def layerForward : Layer → List (List ℚ) → Option (List (List ℚ))
  | .linear l, xs =>
      if xs.all (fun r => r.length == l.inF) then some (xs.map (linApply l))
      else none
  | .relu, xs => some (xs.map reluV)

/-- Run a batch through a sequential stack of layers, in order; any layer's
shape error aborts the whole forward pass. -/
def seqForward (ls : List Layer) (xs : List (List ℚ)) : Option (List (List ℚ)) :=
  match ls with
  | [] => some xs
  | L :: rest => (layerForward L xs).bind (seqForward rest)

/-- The Part-3 classifier: fc1 → relu1 → fc2 → relu2 → logits, with no
module after the final linear layer (the `'logits'` layer). -/
def mnistSeqModel (fc1 fc2 logits : Linear) : List Layer :=
  [.linear fc1, .relu, .linear fc2, .relu, .linear logits]

/-! ## `resize_` and the training-loop forward pass (part_000)

The training loop flattens each batch with `images.resize_(images.size()[0],
784)` before the forward pass.  `Tensor.resize_` never raises on a size
change: it reinterprets the existing elements in row-major order, dropping
surplus elements and leaving newly allocated elements uninitialised.  We
model the uninitialised fill deterministically as zeros; no claim depends on
the fill values, only on the fact that the call succeeds. -/

/-- Split a flat buffer into `rows` rows of `cols` elements each (row-major). -/
def mkRows : Nat → Nat → List ℚ → List (List ℚ)
  | 0, _, _ => []
  | r + 1, cols, data => data.take cols :: mkRows r cols (data.drop cols)

/-- `t.resize_(rows, cols)`: flatten the tensor row-major, truncate or
extend the buffer to `rows * cols` elements, and reshape. -/
def resizeTensor (rows cols : Nat) (xs : List (List ℚ)) : List (List ℚ) :=
  mkRows rows cols (xs.flatten ++ List.replicate (rows * cols - xs.flatten.length) 0)

/-- One training-loop forward pass of part_000: `images.resize_(
images.size()[0], 784)` followed by `model.forward(images)`. -/
def trainBatchForward (fc1 fc2 logits : Linear) (images : List (List ℚ)) :
    Option (List (List ℚ)) :=
  seqForward (mnistSeqModel fc1 fc2 logits) (resizeTensor images.length 784 images)

/-! ## One optimizer iteration (part_000, training loop body)

Per mini-batch the source runs, in this order: `optimizer.zero_grad()`;
`output = model.forward(images)`; `loss = criterion(output, labels)`;
`loss.backward()`; `optimizer.step()`.  Parameters and their gradients are
flat rational vectors; the composite forward/loss/backward computation is an
abstract function `gradOf` from the current weights to the gradient of this
batch's loss (reverse-mode differentiation is an external collaborator). -/

/-- Mutable optimizer state: the parameter vector and its gradient buffer. -/
structure SGDState where
  w : List ℚ
  g : List ℚ
  deriving DecidableEq

/-- `optimizer.zero_grad()`: reset every gradient entry to zero (shape kept). -/
def zero_grad (s : SGDState) : SGDState :=
  { s with g := s.g.map (fun _ => 0) }

/-- `loss.backward()`: accumulate this batch's gradient into the gradient
buffer (PyTorch adds; it does not overwrite). -/
def backwardAdd (grad : List ℚ) (s : SGDState) : SGDState :=
  { s with g := List.zipWith (· + ·) s.g grad }

/-- `optimizer.step()` for SGD: `w ← w - lr * g`. -/
def optimStep (lr : ℚ) (s : SGDState) : SGDState :=
  { s with w := List.zipWith (fun wi gi => wi - lr * gi) s.w s.g }

/-- The loop body of part_000, in source order: zero the gradients, run
forward/loss/backward on the current batch (producing `gradOf` of the
current weights), then take an optimizer step. -/
def trainingStep (lr : ℚ) (gradOf : List ℚ → List ℚ) (s : SGDState) : SGDState :=
  let s1 := zero_grad s
  let s2 := backwardAdd (gradOf s1.w) s1
  optimStep lr s2

/-! ## The periodic loss report (part_000, training loop)

The source initialises `steps = 0` once, before the epoch loop; each epoch
resets `running_loss = 0`; each batch does `steps += 1`,
`running_loss += loss.item()`, and when `steps % print_every == 0` prints
`running_loss / print_every` and resets `running_loss = 0`.  We track, for
each printed report, its epoch and how many batch losses were accumulated
into the printed average. -/

/-- State of the reporting bookkeeping: the global step counter, the number
of losses currently summed in `running_loss`, and the log of reports as
(epoch, number of batches accumulated) pairs. -/
structure ReportState where
  steps : Nat
  runCount : Nat
  reports : List (Nat × Nat)
  deriving DecidableEq

/-- One inner-loop iteration of the reporting bookkeeping for epoch `e`
(1-based) with report period `printEvery`. -/
def reportBatch (printEvery e : Nat) (s : ReportState) : ReportState :=
  let steps := s.steps + 1
  let rc := s.runCount + 1
  if steps % printEvery == 0 then
    { steps := steps, runCount := 0, reports := s.reports ++ [(e, rc)] }
  else
    { steps := steps, runCount := rc, reports := s.reports }

/-- Run `n` consecutive batches of epoch `e` through the bookkeeping. -/
def runBatches (printEvery e : Nat) : Nat → ReportState → ReportState
  | 0, s => s
  | n + 1, s => runBatches printEvery e n (reportBatch printEvery e s)

/-- One epoch: reset `running_loss`, then run `numBatches` batches. -/
def reportEpoch (printEvery numBatches e : Nat) (s : ReportState) : ReportState :=
  runBatches printEvery e numBatches { s with runCount := 0 }

/-- Run `count` consecutive epochs starting at epoch number `e`. -/
def reportEpochsFrom (printEvery numBatches : Nat) (e : Nat) :
    Nat → ReportState → ReportState
  | 0, s => s
  | count + 1, s =>
      reportEpochsFrom printEvery numBatches (e + 1) count
        (reportEpoch printEvery numBatches e s)

/-- The whole loop: epochs `1 .. epochs` in order, with `steps` carried
across epochs (it is never reset). -/
def reportLoop (printEvery numBatches epochs : Nat) : ReportState :=
  reportEpochsFrom printEvery numBatches 1 epochs
    { steps := 0, runCount := 0, reports := [] }

/-- The batch count behind the first report printed for epoch `e`, if any. -/
def firstReportOf (e : Nat) (s : ReportState) : Option Nat :=
  (s.reports.find? (fun p => p.1 == e)).map Prod.snd

/-! ## The configurable classifier `fc_model.Network` (spec-modelled)

The notebook part_001 imports `fc_model` but the file `fc_model.py` is not
among the sources; only its callers and printed representation are.  The
printed module (part_001) shows the architecture: a `ModuleList` of hidden
`Linear` layers, an `output` `Linear` layer, and a `Dropout(p=0.5)`. -/

/-- Configurable feed-forward classifier.  `input_size` and `output_size`
are the configured dimensions (integers, so that non-positive
configurations are expressible), `drop_p` the dropout probability,
`hiddenLins` the hidden `Linear` layers in order, and `output` the final
`Linear` layer. -/
structure Network where
  input_size : Int
  output_size : Int
  drop_p : ℚ
  hiddenLins : List Linear
  output : Linear
  deriving DecidableEq

/-- The hidden-layer width list `[each.out_features for each in
model.hidden_layers]`, as the checkpoint cell of part_001 computes it. -/
def Network.hidden_layers (m : Network) : List Int :=
  m.hiddenLins.map (fun l => (l.outF : Int))

/-- Build the stack of hidden linear layers: the first maps `input` to the
first width, and each successive layer's input width is the previous
layer's output width. -/
def mkLins (input : Nat) : List Nat → List Linear
  | [] => []
  | h :: t => zeroLinear input h :: mkLins h t

/-- Modelled from the spec: the constructor of `fc_model.Network`
(`fc_model.py` is imported by part_001 but missing from the sources).  Per
§4.1, given `(input_size, output_size, hidden_sizes, dropout_p)` it
constructs the stack of affine transformations whose successive widths
chain from `input_size` through `hidden_sizes` to `output_size`, and
"constructing with a non-positive dimension or a hidden_sizes entry of zero
must fail with a configuration error" — modelled as `none`.  §3 allows the
hidden-layer list to be empty (a single linear layer).  Parameter values
are freshly initialised (zeros here; the source initialisation is random
and no claim observes it). -/
def Network.build (input_size output_size : Int) (hidden : List Int)
    (drop_p : ℚ) : Option Network :=
  if input_size ≤ 0 ∨ output_size ≤ 0 ∨ (0 : Int) ∈ hidden then none
  else
    let hs := hidden.map Int.toNat
    some { input_size := input_size
           output_size := output_size
           drop_p := drop_p
           hiddenLins := mkLins input_size.toNat hs
           output := zeroLinear (hs.getLastD input_size.toNat) output_size.toNat }

/-- Modelled from the spec: calling `fc_model.Network(input_size,
output_size, hidden_layers)` without a dropout argument, as
`load_checkpoint` does; the printed loaded model shows the constructor's
default dropout probability `Dropout(p=0.5)`. -/
def Network.buildDefault (input_size output_size : Int) (hidden : List Int) :
    Option Network :=
  Network.build input_size output_size hidden (1 / 2)

/-! ## `state_dict` and `load_state_dict` -/

/-- A serialized parameter tensor: a weight matrix or a bias vector. -/
inductive Tensor where
  | mat (m : List (List ℚ))
  | vec (v : List ℚ)
  deriving DecidableEq

/-- The shape of a tensor, as compared by `load_state_dict`'s size check:
row count followed by the row lengths for a matrix, the length for a
vector. -/
def tshape : Tensor → List Nat
  | .mat m => m.length :: m.map List.length
  | .vec v => [v.length]

/-- The entries of the state dict contributed by the hidden layers,
numbered from `i`: keys `hidden_layers.<i>.weight` and
`hidden_layers.<i>.bias` per layer, in order. -/
def sdHidden (i : Nat) : List Linear → List (String × Tensor)
  | [] => []
  | l :: ls =>
      ("hidden_layers." ++ toString i ++ ".weight", .mat l.weight)
        :: ("hidden_layers." ++ toString i ++ ".bias", .vec l.bias)
        :: sdHidden (i + 1) ls

/-- `model.state_dict()`: the ordered mapping from parameter name to tensor,
with the key layout printed by part_001 (`hidden_layers.<i>.weight`,
`hidden_layers.<i>.bias`, ..., `output.weight`, `output.bias`). -/
def Network.state_dict (m : Network) : List (String × Tensor) :=
  sdHidden 0 m.hiddenLins
    ++ [("output.weight", .mat m.output.weight), ("output.bias", .vec m.output.bias)]

/-- The signature `load_state_dict` checks in strict mode: each entry's key
together with its tensor shape. -/
def sdSig (sd : List (String × Tensor)) : List (String × List Nat) :=
  sd.map (fun p => (p.1, tshape p.2))

/-- Overwrite the parameters of a list of linear layers with the leading
tensors of a state dict, positionally (weight then bias per layer), and
return the remaining tensors.  Only reached after the strict compatibility
check, so the fallthrough case is inert. -/
def setParams : List Linear → List Tensor → List Linear × List Tensor
  | l :: ls, .mat w :: .vec b :: rest =>
      let p := setParams ls rest
      ({ l with weight := w, bias := b } :: p.1, p.2)
  | ls, rest => (ls, rest)

/-- Overwrite the output layer's parameters from the trailing two tensors. -/
def setOut (l : Linear) : List Tensor → Linear
  | [.mat w, .vec b] => { l with weight := w, bias := b }
  | _ => l

/-- `model.load_state_dict(sd)` in strict mode: raise (`none`) unless the
keys and the parameter shapes of `sd` match the model's own state dict
exactly — never truncating or padding — and otherwise copy the stored
values into the model's parameters. -/
def Network.load_state_dict (m : Network) (sd : List (String × Tensor)) :
    Option Network :=
  if sdSig m.state_dict = sdSig sd then
    let p := setParams m.hiddenLins (sd.map Prod.snd)
    some { m with hiddenLins := p.1, output := setOut m.output p.2 }
  else none

/-! ## Checkpoint persistence (part_001)

`checkpoint = {'input_size': 784, 'output_size': 10, 'hidden_layers':
[each.out_features for each in model.hidden_layers], 'state_dict':
model.state_dict()}` followed by `torch.save(checkpoint, 'checkpoint.pth')`;
the file I/O of `torch.save`/`torch.load` is modelled as passing the record
value itself. -/

/-- A value of the serialized checkpoint mapping. -/
inductive CkptVal where
  | int (n : Int)
  | list (l : List Int)
  | sdict (d : List (String × Tensor))
  deriving DecidableEq

/-- The checkpoint record built by part_001: an ordered mapping whose
`input_size` and `output_size` entries are the literals 784 and 10 written
in the source cell, with the hidden widths and state dict taken from the
model. -/
def checkpoint (m : Network) : List (String × CkptVal) :=
  [("input_size", .int 784),
   ("output_size", .int 10),
   ("hidden_layers", .list m.hidden_layers),
   ("state_dict", .sdict m.state_dict)]

/-- Dictionary lookup in a checkpoint record. -/
def ckptGet (c : List (String × CkptVal)) (k : String) : Option CkptVal :=
  (c.find? (fun p => p.1 == k)).map Prod.snd

/-- `load_checkpoint`: read the record, reconstruct a classifier with the
stored configuration (`fc_model.Network(checkpoint['input_size'],
checkpoint['output_size'], checkpoint['hidden_layers'])`, hence the default
dropout), and restore the stored parameters with `load_state_dict`. -/
def load_checkpoint (c : List (String × CkptVal)) : Option Network :=
  match ckptGet c "input_size", ckptGet c "output_size",
      ckptGet c "hidden_layers", ckptGet c "state_dict" with
  | some (.int i), some (.int o), some (.list h), some (.sdict sd) =>
      (Network.buildDefault i o h).bind (fun m => m.load_state_dict sd)
  | _, _, _, _ => none

/-! ## Well-formedness and the evaluation-mode forward pass -/

/-- The chain condition for the hidden stack: starting from input width
`i`, each layer is well-formed, expects the running width, and has a
positive output width. -/
def linsChainWF (i : Nat) : List Linear → Bool
  | [] => true
  | l :: ls => l.inF == i && linWF l && decide (0 < l.outF) && linsChainWF l.outF ls

/-- The input width of the final layer: the last hidden width, or the input
size for an empty hidden list. -/
def Network.lastHidden (m : Network) : Nat :=
  (m.hiddenLins.map Linear.outF).getLastD m.input_size.toNat

/-- Well-formedness of a network: positive configured dimensions, a
well-formed chained hidden stack, and a well-formed output layer of the
configured output size. -/
def Network.wf (m : Network) : Bool :=
  decide (0 < m.input_size) && decide (0 < m.output_size)
    && linsChainWF m.input_size.toNat m.hiddenLins
    && (m.output.inF == m.lastHidden) && linWF m.output
    && (m.output.outF == m.output_size.toNat)

/-- Modelled from the spec: the forward pass of `fc_model.Network` in
evaluation mode (`fc_model.py` is missing from the sources).  Per §4.1 the
hidden stack applies affine transformations separated by rectified-linear
activations, with dropout "applied only during training mode" (hence absent
here), and the final affine transformation is applied with no activation. -/
def Network.evalForward (m : Network) (x : List ℚ) : List ℚ :=
  linApply m.output (m.hiddenLins.foldl (fun a l => reluV (linApply l a)) x)

/-! ## Lemmas about the sequential classifier -/

theorem linWF_parts {l : Linear} (h : linWF l = true) :
    l.weight.length = l.outF ∧ (∀ r ∈ l.weight, r.length = l.inF)
      ∧ l.bias.length = l.outF := by
  simpa [linWF, Bool.and_eq_true, List.all_eq_true, and_assoc] using h

theorem length_linApply {l : Linear} (h : linWF l = true) (x : List ℚ) :
    (linApply l x).length = l.outF := by
  obtain ⟨hw, -, hb⟩ := linWF_parts h
  simp [linApply, matVec, hw, hb]

theorem length_reluV (x : List ℚ) : (reluV x).length = x.length := by
  simp [reluV]

theorem layerForward_linear_of_fit {l : Linear} {xs : List (List ℚ)}
    (h : ∀ r ∈ xs, r.length = l.inF) :
    layerForward (.linear l) xs = some (xs.map (linApply l)) := by
  simp only [layerForward]
  rw [if_pos]
  simpa [List.all_eq_true] using h

theorem layerForward_linear_of_misfit {l : Linear} {xs : List (List ℚ)}
    {r : List ℚ} (hr : r ∈ xs) (h : r.length ≠ l.inF) :
    layerForward (.linear l) xs = none := by
  simp only [layerForward]
  rw [if_neg]
  intro hall
  exact h (by simpa using (List.all_eq_true.mp hall r hr))

/-- Running the Part-3 stack on a batch whose rows all fit `fc1` succeeds
and computes, row by row, the two relu-separated affine maps followed by
the bare final affine map. -/
theorem mnistSeq_run (fc1 fc2 logits : Linear) (xs : List (List ℚ))
    (h1 : linWF fc1 = true) (h2 : linWF fc2 = true)
    (e2 : fc2.inF = fc1.outF) (e3 : logits.inF = fc2.outF)
    (hx : ∀ r ∈ xs, r.length = fc1.inF) :
    seqForward (mnistSeqModel fc1 fc2 logits) xs
      = some (xs.map fun r =>
          linApply logits (reluV (linApply fc2 (reluV (linApply fc1 r))))) := by
  have s1 := layerForward_linear_of_fit (l := fc1) hx
  have hx2 : ∀ r ∈ (xs.map (linApply fc1)).map reluV, r.length = fc2.inF := by
    intro r hr
    simp only [List.map_map, List.mem_map] at hr
    obtain ⟨a, -, rfl⟩ := hr
    simp [length_reluV, length_linApply h1, e2]
  have s2 := layerForward_linear_of_fit (l := fc2) hx2
  have hx3 : ∀ r ∈ (((xs.map (linApply fc1)).map reluV).map (linApply fc2)).map reluV,
      r.length = logits.inF := by
    intro r hr
    simp only [List.map_map, List.mem_map] at hr
    obtain ⟨a, -, rfl⟩ := hr
    simp [length_reluV, length_linApply h2, e3]
  have s3 := layerForward_linear_of_fit (l := logits) hx3
  have r1 : layerForward Layer.relu (xs.map (linApply fc1))
      = some ((xs.map (linApply fc1)).map reluV) := rfl
  have r2 : layerForward Layer.relu (((xs.map (linApply fc1)).map reluV).map (linApply fc2))
      = some ((((xs.map (linApply fc1)).map reluV).map (linApply fc2)).map reluV) := rfl
  simp only [mnistSeqModel, seqForward]
  rw [s1, Option.some_bind, r1, Option.some_bind, s2, Option.some_bind, r2,
    Option.some_bind, s3, Option.some_bind]
  simp only [List.map_map]
  rfl

/-! ## Lemmas about `resize_` -/

theorem mkRows_row_length : ∀ (n cols : Nat) (data : List ℚ),
    n * cols ≤ data.length → ∀ r ∈ mkRows n cols data, r.length = cols := by
  intro n
  induction n with
  | zero => intro cols data _ r hr; simp [mkRows] at hr
  | succ k ih =>
      intro cols data hlen r hr
      have hs : (k + 1) * cols = k * cols + cols := Nat.succ_mul k cols
      have hc : cols ≤ data.length := by omega
      simp only [mkRows, List.mem_cons] at hr
      rcases hr with rfl | hr
      · simp [Nat.min_eq_left hc]
      · refine ih cols (data.drop cols) ?_ r hr
        have hd : (data.drop cols).length = data.length - cols := by simp
        omega

theorem resizeTensor_row_length (rows cols : Nat) (xs : List (List ℚ)) :
    ∀ r ∈ resizeTensor rows cols xs, r.length = cols := by
  refine mkRows_row_length rows cols _ ?_
  simp only [List.length_append, List.length_replicate]
  omega

/-! ## Lemmas about one optimizer iteration -/

theorem zipWith_add_zeros : ∀ (n : Nat) (l : List ℚ), n = l.length →
    List.zipWith (· + ·) (List.replicate n (0 : ℚ)) l = l := by
  intro n
  induction n with
  | zero =>
      intro l h
      cases l with
      | nil => rfl
      | cons b bs => simp at h
  | succ k ih =>
      intro l h
      cases l with
      | nil => simp at h
      | cons b bs => simp [List.replicate_succ, ih bs (by simpa using h)]

/-- The gradient buffer after one loop-body iteration is exactly the current
batch's gradient at the current weights; the incoming buffer has vanished. -/
theorem trainingStep_eq (lr : ℚ) (gradOf : List ℚ → List ℚ) (s : SGDState)
    (hg : s.g.length = s.w.length)
    (hlen : ∀ w : List ℚ, (gradOf w).length = w.length) :
    trainingStep lr gradOf s
      = { w := List.zipWith (fun wi gi => wi - lr * gi) s.w (gradOf s.w)
          g := gradOf s.w } := by
  have hz : List.zipWith (· + ·) (List.replicate s.g.length (0 : ℚ)) (gradOf s.w)
      = gradOf s.w :=
    zipWith_add_zeros s.g.length (gradOf s.w) (by rw [hg, hlen])
  simp [trainingStep, zero_grad, backwardAdd, optimStep, hz]

/-! ## Lemmas about the loss-report bookkeeping -/

theorem reportBatch_steps (P e : Nat) (s : ReportState) :
    (reportBatch P e s).steps = s.steps + 1 := by
  simp only [reportBatch]
  split <;> rfl

theorem reportBatch_of_rem (P e : Nat) (s : ReportState)
    (h : (s.steps + 1) % P ≠ 0) :
    reportBatch P e s = ⟨s.steps + 1, s.runCount + 1, s.reports⟩ := by
  simp [reportBatch, h]

theorem reportBatch_of_hit (P e : Nat) (s : ReportState)
    (h : (s.steps + 1) % P = 0) :
    reportBatch P e s = ⟨s.steps + 1, 0, s.reports ++ [(e, s.runCount + 1)]⟩ := by
  simp [reportBatch, h]

theorem runBatches_add (P e : Nat) : ∀ (a b : Nat) (s : ReportState),
    runBatches P e (a + b) s = runBatches P e b (runBatches P e a s) := by
  intro a
  induction a with
  | zero => intro b s; simp [runBatches]
  | succ k ih =>
      intro b s
      rw [Nat.succ_add]
      show runBatches P e (k + b) (reportBatch P e s)
        = runBatches P e b (runBatches P e k (reportBatch P e s))
      exact ih b (reportBatch P e s)

theorem runBatches_steps (P e : Nat) : ∀ (n : Nat) (s : ReportState),
    (runBatches P e n s).steps = s.steps + n := by
  intro n
  induction n with
  | zero => intro s; rfl
  | succ k ih =>
      intro s
      show (runBatches P e k (reportBatch P e s)).steps = s.steps + (k + 1)
      rw [ih, reportBatch_steps]
      omega

theorem runBatches_reports (P e : Nat) : ∀ (n : Nat) (s : ReportState),
    ∃ L, (runBatches P e n s).reports = s.reports ++ L ∧ ∀ p ∈ L, p.1 = e := by
  intro n
  induction n with
  | zero => intro s; exact ⟨[], by simp [runBatches], by simp⟩
  | succ k ih =>
      intro s
      obtain ⟨L, hL, hT⟩ := ih (reportBatch P e s)
      by_cases h : (s.steps + 1) % P = 0
      · refine ⟨(e, s.runCount + 1) :: L, ?_, ?_⟩
        · show (runBatches P e k (reportBatch P e s)).reports = _
          rw [hL, reportBatch_of_hit P e s h]
          simp
        · intro p hp
          rcases List.mem_cons.mp hp with rfl | hp
          · rfl
          · exact hT p hp
      · refine ⟨L, ?_, hT⟩
        show (runBatches P e k (reportBatch P e s)).reports = _
        rw [hL, reportBatch_of_rem P e s h]

theorem runBatches_quiet (P e : Nat) : ∀ (n : Nat) (s : ReportState),
    (∀ i, i < n → (s.steps + i + 1) % P ≠ 0) →
    runBatches P e n s = ⟨s.steps + n, s.runCount + n, s.reports⟩ := by
  intro n
  induction n with
  | zero => intro s _; rfl
  | succ k ih =>
      intro s h
      have h0 : (s.steps + 1) % P ≠ 0 := by simpa using h 0 (Nat.succ_pos k)
      show runBatches P e k (reportBatch P e s) = _
      rw [reportBatch_of_rem P e s h0]
      rw [ih ⟨s.steps + 1, s.runCount + 1, s.reports⟩ ?_]
      · have e1 : s.steps + 1 + k = s.steps + (k + 1) := by omega
        have e2 : s.runCount + 1 + k = s.runCount + (k + 1) := by omega
        rw [e1, e2]
      · intro i hi
        have hh := h (i + 1) (by omega)
        have e3 : s.steps + 1 + i + 1 = s.steps + (i + 1) + 1 := by omega
        rw [e3]
        exact hh

theorem find?_append_of_none {α : Type} {p : α → Bool} {A B : List α}
    (h : ∀ x ∈ A, p x = false) :
    List.find? p (A ++ B) = List.find? p B := by
  induction A with
  | nil => rfl
  | cons a as ih =>
      rw [List.cons_append, List.find?_cons_of_neg _ (by simp [h a (by simp)]),
        ih (fun x hx => h x (by simp [hx]))]

/-- Shape of the report log of the source's loop (`epochs = 3`,
`print_every = 40`, 938 mini-batches per epoch): epoch 1's reports, then a
report of epoch 2 averaging only 22 batches, epoch 2's remaining reports,
then a report of epoch 3 averaging only 4 batches, then the rest. -/
theorem reportEpoch_eq (P N e : Nat) (s : ReportState) :
    reportEpoch P N e s = runBatches P e N ⟨s.steps, 0, s.reports⟩ := rfl

theorem runBatches_one (P e : Nat) (s : ReportState) :
    runBatches P e 1 s = reportBatch P e s := rfl

theorem reportLoop_shape : ∃ R1 L2 L3 : List (Nat × Nat),
    (reportLoop 40 938 3).reports
        = R1 ++ [(2, 22)] ++ L2 ++ [(3, 4)] ++ L3
      ∧ (∀ p ∈ R1, p.1 = 1) ∧ (∀ p ∈ L2, p.1 = 2) ∧ (∀ p ∈ L3, p.1 = 3) := by
  -- epoch 1
  obtain ⟨R1, h1r, h1t⟩ := runBatches_reports 40 1 938 ⟨0, 0, []⟩
  rw [List.nil_append] at h1r
  have h1s : (runBatches 40 1 938 ⟨0, 0, []⟩).steps = 938 := by
    rw [runBatches_steps]
  -- epoch 2: the first 22 batches end in a report over 22 batches
  have hdec2 : ∀ i, i < 21 → (938 + i + 1) % 40 ≠ 0 := by decide
  have hq2 : runBatches 40 2 21 ⟨938, 0, R1⟩ = ⟨959, 21, R1⟩ :=
    runBatches_quiet 40 2 21 ⟨938, 0, R1⟩ hdec2
  have hin2 : runBatches 40 2 22 ⟨938, 0, R1⟩ = ⟨960, 0, R1 ++ [(2, 22)]⟩ := by
    have h22 : (22 : Nat) = 21 + 1 := rfl
    rw [h22, runBatches_add, hq2, runBatches_one,
      reportBatch_of_hit 40 2 ⟨959, 21, R1⟩ (show (959 + 1) % 40 = 0 by decide)]
  have hsplit2 : runBatches 40 2 938 ⟨938, 0, R1⟩
      = runBatches 40 2 916 ⟨960, 0, R1 ++ [(2, 22)]⟩ := by
    have h := runBatches_add 40 2 22 916 ⟨938, 0, R1⟩
    have e : (22 + 916 : Nat) = 938 := by norm_num
    rw [e, hin2] at h
    exact h
  obtain ⟨L2, h2r, h2t⟩ := runBatches_reports 40 2 916 ⟨960, 0, R1 ++ [(2, 22)]⟩
  have h2s : (runBatches 40 2 916 ⟨960, 0, R1 ++ [(2, 22)]⟩).steps = 1876 := by
    rw [runBatches_steps]
  -- epoch 3: the first 4 batches end in a report over 4 batches
  have hdec3 : ∀ i, i < 3 → (1876 + i + 1) % 40 ≠ 0 := by decide
  have hq3 : runBatches 40 3 3 ⟨1876, 0, (R1 ++ [(2, 22)]) ++ L2⟩
      = ⟨1879, 3, (R1 ++ [(2, 22)]) ++ L2⟩ :=
    runBatches_quiet 40 3 3 ⟨1876, 0, (R1 ++ [(2, 22)]) ++ L2⟩ hdec3
  have hin3 : runBatches 40 3 4 ⟨1876, 0, (R1 ++ [(2, 22)]) ++ L2⟩
      = ⟨1880, 0, ((R1 ++ [(2, 22)]) ++ L2) ++ [(3, 4)]⟩ := by
    have h4 : (4 : Nat) = 3 + 1 := rfl
    rw [h4, runBatches_add, hq3, runBatches_one,
      reportBatch_of_hit 40 3 ⟨1879, 3, (R1 ++ [(2, 22)]) ++ L2⟩
        (show (1879 + 1) % 40 = 0 by decide)]
  have hsplit3 : runBatches 40 3 938 ⟨1876, 0, (R1 ++ [(2, 22)]) ++ L2⟩
      = runBatches 40 3 934 ⟨1880, 0, ((R1 ++ [(2, 22)]) ++ L2) ++ [(3, 4)]⟩ := by
    have h := runBatches_add 40 3 4 934 ⟨1876, 0, (R1 ++ [(2, 22)]) ++ L2⟩
    have e : (4 + 934 : Nat) = 938 := by norm_num
    rw [e, hin3] at h
    exact h
  obtain ⟨L3, h3r, h3t⟩ :=
    runBatches_reports 40 3 934 ⟨1880, 0, ((R1 ++ [(2, 22)]) ++ L2) ++ [(3, 4)]⟩
  refine ⟨R1, L2, L3, ?_, h1t, h2t, h3t⟩
  -- unfold the three epochs of the loop by rewriting only
  rw [reportLoop, reportEpochsFrom, reportEpochsFrom, reportEpochsFrom,
    reportEpoch_eq 40 938 1]
  rw [show ((⟨0, 0, []⟩ : ReportState).steps) = 0 from rfl,
    show ((⟨0, 0, []⟩ : ReportState).reports) = [] from rfl]
  rw [reportEpoch_eq 40 938 (1 + 1), h1s, h1r]
  rw [show (1 + 1 : Nat) = 2 from rfl, hsplit2]
  rw [reportEpoch_eq 40 938 (2 + 1), h2s, h2r]
  rw [show (2 + 1 : Nat) = 3 from rfl, hsplit3]
  rw [reportEpochsFrom, h3r]

/-! ## Lemmas about `Network`, `state_dict` and checkpoints -/

theorem linsChainWF_parts {i : Nat} {l : Linear} {ls : List Linear}
    (h : linsChainWF i (l :: ls) = true) :
    l.inF = i ∧ linWF l = true ∧ 0 < l.outF ∧ linsChainWF l.outF ls = true := by
  simpa [linsChainWF, Bool.and_eq_true, and_assoc] using h

theorem linsChainWF_mem : ∀ (i : Nat) (ls : List Linear),
    linsChainWF i ls = true → ∀ l ∈ ls, linWF l = true ∧ 0 < l.outF := by
  intro i ls
  induction ls generalizing i with
  | nil => intro _ l hl; simp at hl
  | cons a t ih =>
      intro h l hl
      obtain ⟨-, ha, hp, ht⟩ := linsChainWF_parts h
      rcases List.mem_cons.mp hl with rfl | hl
      · exact ⟨ha, hp⟩
      · exact ih a.outF ht l hl

theorem wf_parts {m : Network} (h : m.wf = true) :
    0 < m.input_size ∧ 0 < m.output_size
      ∧ linsChainWF m.input_size.toNat m.hiddenLins = true
      ∧ m.output.inF = m.lastHidden ∧ linWF m.output = true
      ∧ m.output.outF = m.output_size.toNat := by
  simpa [Network.wf, Bool.and_eq_true, and_assoc] using h

theorem hidden_toNat (m : Network) :
    m.hidden_layers.map Int.toNat = m.hiddenLins.map Linear.outF := by
  simp [Network.hidden_layers, List.map_map, Function.comp_def]

theorem zero_notin_hidden {m : Network}
    (h : linsChainWF m.input_size.toNat m.hiddenLins = true) :
    (0 : Int) ∉ m.hidden_layers := by
  intro hmem
  obtain ⟨l, hl, hz⟩ := List.mem_map.mp hmem
  have hp := (linsChainWF_mem _ _ h l hl).2
  omega

theorem build_of_valid {i o : Int} {h : List Int} {p : ℚ}
    (hi : 0 < i) (ho : 0 < o) (hz : (0 : Int) ∉ h) :
    Network.build i o h p
      = some { input_size := i, output_size := o, drop_p := p
               hiddenLins := mkLins i.toNat (h.map Int.toNat)
               output := zeroLinear ((h.map Int.toNat).getLastD i.toNat) o.toNat } := by
  unfold Network.build
  rw [if_neg]
  push_neg
  exact ⟨by omega, by omega, hz⟩

theorem weight_shape_replicate {l : Linear} (h : linWF l = true) :
    l.weight.map List.length = List.replicate l.outF l.inF := by
  obtain ⟨hw, hr, -⟩ := linWF_parts h
  refine List.eq_replicate_iff.mpr ⟨by simp [hw], ?_⟩
  intro b hb
  obtain ⟨r, hrmem, rfl⟩ := List.mem_map.mp hb
  exact hr r hrmem

theorem sdSig_sdHidden_fresh : ∀ (ls : List Linear) (i j : Nat),
    linsChainWF i ls = true →
    sdSig (sdHidden j (mkLins i (ls.map Linear.outF))) = sdSig (sdHidden j ls) := by
  intro ls
  induction ls with
  | nil => intro i j _; rfl
  | cons l t ih =>
      intro i j h
      obtain ⟨hin, hwfl, -, ht⟩ := linsChainWF_parts h
      obtain ⟨hw, -, hb⟩ := linWF_parts hwfl
      simp only [List.map_cons, mkLins, sdHidden, sdSig, zeroLinear, tshape,
        List.length_replicate, List.map_replicate, List.cons.injEq, Prod.mk.injEq]
      refine ⟨⟨trivial, hw.symm, ?_⟩, ⟨trivial, hb.symm, trivial⟩, ?_⟩
      · rw [weight_shape_replicate hwfl, hin]
      · simpa [sdSig, tshape] using ih l.outF (j + 1) ht

theorem setParams_restore : ∀ (ls : List Linear) (i j : Nat) (rest : List Tensor),
    linsChainWF i ls = true →
    setParams (mkLins i (ls.map Linear.outF))
        ((sdHidden j ls).map Prod.snd ++ rest)
      = (ls, rest) := by
  intro ls
  induction ls with
  | nil => intro i j rest _; rfl
  | cons l t ih =>
      intro i j rest h
      obtain ⟨hin, -, -, ht⟩ := linsChainWF_parts h
      simp only [List.map_cons, mkLins, sdHidden, List.cons_append, setParams,
        List.append_eq]
      rw [ih l.outF (j + 1) rest ht]
      rcases l with ⟨li, lo, lw, lb⟩
      simp only [Linear.inF] at hin
      subst hin
      rfl

theorem sdSig_append (a b : List (String × Tensor)) :
    sdSig (a ++ b) = sdSig a ++ sdSig b :=
  List.map_append _ a b

theorem load_checkpoint_roundtrip (m : Network) (hwf : m.wf = true)
    (hi : m.input_size = 784) (ho : m.output_size = 10) :
    load_checkpoint (checkpoint m) = some { m with drop_p := 1 / 2 } := by
  obtain ⟨-, -, hchain, hoin, howf, hoout⟩ := wf_parts hwf
  obtain ⟨hw, hr, hb⟩ := linWF_parts howf
  rcases m with ⟨mi, mo, mp, mls, mout⟩
  dsimp only [Network.lastHidden] at hchain hoin howf hoout hi ho hw hb hr
  subst hi
  subst ho
  have hz : (0 : Int) ∉ Network.hidden_layers ⟨784, 10, mp, mls, mout⟩ :=
    zero_notin_hidden hchain
  have hstep : load_checkpoint (checkpoint ⟨784, 10, mp, mls, mout⟩)
      = (Network.buildDefault 784 10 (Network.hidden_layers ⟨784, 10, mp, mls, mout⟩)).bind
          (fun n => n.load_state_dict (Network.state_dict ⟨784, 10, mp, mls, mout⟩)) := rfl
  rw [hstep, Network.buildDefault, build_of_valid (by norm_num) (by norm_num) hz,
    Option.some_bind]
  rw [hidden_toNat ⟨784, 10, mp, mls, mout⟩]
  dsimp only
  rcases mout with ⟨oi, oo, ow, ob⟩
  dsimp only at hoin hoout hw hr hb
  subst hoin
  subst hoout
  have hsig : sdSig (Network.state_dict ⟨784, 10, 1 / 2,
        mkLins (Int.toNat 784) (mls.map Linear.outF),
        zeroLinear ((mls.map Linear.outF).getLastD (Int.toNat 784)) (Int.toNat 10)⟩)
      = sdSig (Network.state_dict ⟨784, 10, mp, mls,
          ⟨(mls.map Linear.outF).getLastD (Int.toNat 784), Int.toNat 10, ow, ob⟩⟩) := by
    dsimp only [Network.state_dict]
    rw [sdSig_append, sdSig_append, sdSig_sdHidden_fresh mls (Int.toNat 784) 0 hchain]
    congr 1
    simp only [sdSig, tshape, zeroLinear, List.map_cons, List.map_nil,
      List.length_replicate, List.map_replicate, List.cons.injEq, Prod.mk.injEq]
    refine ⟨⟨trivial, ?_, ?_⟩, ⟨trivial, ?_, trivial⟩, trivial⟩
    · exact hw.symm
    · rw [weight_shape_replicate howf]
    · exact hb.symm
  rw [Network.load_state_dict, if_pos hsig]
  have hmap : (Network.state_dict ⟨784, 10, mp, mls,
        ⟨(mls.map Linear.outF).getLastD (Int.toNat 784), Int.toNat 10, ow, ob⟩⟩).map Prod.snd
      = (sdHidden 0 mls).map Prod.snd ++ [Tensor.mat ow, Tensor.vec ob] := by
    dsimp only [Network.state_dict]
    rw [List.map_append]
    rfl
  dsimp only
  rw [hmap, setParams_restore mls (Int.toNat 784) 0 _ hchain]
  rfl

/-! ## Concrete witness models -/

/-- A well-formed network of the notebooks' configuration (input 784,
output 10) with a non-default dropout probability, used as a witness. -/
def mWit784 : Network :=
  ⟨784, 10, 1 / 4, [zeroLinear 784 1], zeroLinear 1 10⟩

/-- A second well-formed 784/10 network with dropout probability 1/3. -/
def mWit784b : Network :=
  ⟨784, 10, 1 / 3, [zeroLinear 784 2], zeroLinear 2 10⟩

/-- A small well-formed network with hidden widths [4]. -/
def mWitA : Network := ⟨3, 2, 1 / 2, [zeroLinear 3 4], zeroLinear 4 2⟩

/-- A small well-formed network with hidden widths [5]. -/
def mWitB : Network := ⟨3, 2, 1 / 2, [zeroLinear 3 5], zeroLinear 5 2⟩

/-! ## Claim theorems -/

/-- Claim C3: for every valid configuration and every batch of shape
(batch_size, input_size), the constructed classifier's forward pass returns
a tensor of shape (batch_size, output_size).  The configuration is carried
by the three linear layers of the part_000 `nn.Sequential` model: `fc1`
maps `input_size` to `hidden_sizes[0]`, `fc2` to `hidden_sizes[1]`, and
`logits` to `output_size`. -/
theorem claim_C3_forward_shape (fc1 fc2 logits : Linear) (xs : List (List ℚ))
    (h1 : linWF fc1 = true) (h2 : linWF fc2 = true) (h3 : linWF logits = true)
    (e2 : fc2.inF = fc1.outF) (e3 : logits.inF = fc2.outF)
    (hx : ∀ r ∈ xs, r.length = fc1.inF) :
    ∃ ys, seqForward (mnistSeqModel fc1 fc2 logits) xs = some ys
      ∧ ys.length = xs.length ∧ ∀ r ∈ ys, r.length = logits.outF := by
  refine ⟨_, mnistSeq_run fc1 fc2 logits xs h1 h2 e2 e3 hx, by simp, ?_⟩
  intro r hr
  obtain ⟨a, -, rfl⟩ := List.mem_map.mp hr
  exact length_linApply h3 _

theorem claim_C3_witness :
    linWF ⟨2, 1, [[1, 1]], [0]⟩ = true
      ∧ linWF ⟨1, 1, [[1]], [0]⟩ = true
      ∧ (∀ r ∈ [[(1 : ℚ), 2]], r.length = (⟨2, 1, [[1, 1]], [0]⟩ : Linear).inF)
      ∧ ∃ ys, seqForward
            (mnistSeqModel ⟨2, 1, [[1, 1]], [0]⟩ ⟨1, 1, [[1]], [0]⟩ ⟨1, 1, [[1]], [0]⟩)
            [[(1 : ℚ), 2]] = some ys
          ∧ ys.length = ([[(1 : ℚ), 2]] : List (List ℚ)).length
          ∧ ∀ r ∈ ys, r.length = (⟨1, 1, [[1]], [0]⟩ : Linear).outF :=
  ⟨by decide, by decide, by decide,
    claim_C3_forward_shape ⟨2, 1, [[1, 1]], [0]⟩ ⟨1, 1, [[1]], [0]⟩ ⟨1, 1, [[1]], [0]⟩
      [[(1 : ℚ), 2]] (by decide) (by decide) (by decide) rfl rfl (by decide)⟩

/-- Claim C5: for every input batch, the classifier's output is exactly the
final affine layer (`'logits'`) applied to the hidden activations — the
sequential stack applies no activation or normalization after the last
linear transformation (its witness exhibits a run whose output entry is
negative, impossible after a softmax or relu). -/
theorem claim_C5_raw_logits (fc1 fc2 logits : Linear) (xs : List (List ℚ))
    (h1 : linWF fc1 = true) (h2 : linWF fc2 = true)
    (e2 : fc2.inF = fc1.outF) (e3 : logits.inF = fc2.outF)
    (hx : ∀ r ∈ xs, r.length = fc1.inF) :
    seqForward (mnistSeqModel fc1 fc2 logits) xs
      = some (xs.map fun r =>
          linApply logits (reluV (linApply fc2 (reluV (linApply fc1 r))))) :=
  mnistSeq_run fc1 fc2 logits xs h1 h2 e2 e3 hx

theorem claim_C5_witness :
    linWF ⟨1, 1, [[1]], [0]⟩ = true
      ∧ seqForward
          (mnistSeqModel ⟨1, 1, [[1]], [0]⟩ ⟨1, 1, [[1]], [0]⟩ ⟨1, 1, [[-1]], [0]⟩)
          [[(2 : ℚ)]] = some [[(-2 : ℚ)]] :=
  ⟨by decide,
    (claim_C5_raw_logits ⟨1, 1, [[1]], [0]⟩ ⟨1, 1, [[1]], [0]⟩ ⟨1, 1, [[-1]], [0]⟩
        [[(2 : ℚ)]] (by decide) (by decide) rfl rfl (by decide)).trans
      (by norm_num [linApply, matVec, dotQ, reluV])⟩

set_option maxRecDepth 10000 in
/-- Claim C6, counterexample: a batch with flattened per-example dimension
3 ≠ 784 does not make the training loop's forward pass raise — the
preceding `resize_` silently coerces it to shape (1, 784) and the forward
pass succeeds. -/
theorem claim_C6_counterexample :
    ([[(1 : ℚ), 2, 3]] : List (List ℚ)).flatten.length ≠ 784
      ∧ (trainBatchForward (zeroLinear 784 1) (zeroLinear 1 1) (zeroLinear 1 1)
          [[(1 : ℚ), 2, 3]]).isSome = true := by
  exact ⟨by decide, by decide⟩

/-- Claim C6, amended: a batch passed directly to the model's forward pass
with a row whose length differs from the configured input size fails the
linear layer's shape check; but inside the training loop the preceding
`images.resize_(images.size()[0], 784)` silently truncates or pads the
batch to shape (batch, 784), so the loop's forward pass succeeds on every
batch and no input-shape error is raised for mismatched batches. -/
theorem claim_C6_amended (fc1 fc2 logits : Linear) (images : List (List ℚ))
    (h1 : linWF fc1 = true) (h2 : linWF fc2 = true) (hf : fc1.inF = 784)
    (e2 : fc2.inF = fc1.outF) (e3 : logits.inF = fc2.outF)
    (r : List ℚ) (hr : r ∈ images) (hne : r.length ≠ fc1.inF) :
    seqForward (mnistSeqModel fc1 fc2 logits) images = none
      ∧ (trainBatchForward fc1 fc2 logits images).isSome = true := by
  constructor
  · simp [seqForward, mnistSeqModel, layerForward_linear_of_misfit hr hne]
  · unfold trainBatchForward
    have hrows : ∀ row ∈ resizeTensor images.length 784 images, row.length = fc1.inF := by
      intro row hrow
      rw [hf]
      exact resizeTensor_row_length _ _ _ row hrow
    rw [mnistSeq_run fc1 fc2 logits _ h1 h2 e2 e3 hrows]
    rfl

set_option maxRecDepth 10000 in
theorem claim_C6_witness :
    linWF (zeroLinear 784 1) = true
      ∧ ([(5 : ℚ)] : List ℚ).length ≠ (zeroLinear 784 1).inF
      ∧ seqForward (mnistSeqModel (zeroLinear 784 1) (zeroLinear 1 1) (zeroLinear 1 1))
          [[(5 : ℚ)]] = none
      ∧ (trainBatchForward (zeroLinear 784 1) (zeroLinear 1 1) (zeroLinear 1 1)
          [[(5 : ℚ)]]).isSome = true := by
  have h := claim_C6_amended (zeroLinear 784 1) (zeroLinear 1 1) (zeroLinear 1 1)
    [[(5 : ℚ)]] (by decide) (by decide) rfl rfl rfl [(5 : ℚ)] (by decide) (by decide)
  exact ⟨by decide, by decide, h.1, h.2⟩

/-- Claim C4: in every mini-batch iteration the gradients are reset to zero
before the forward/backward pass of that iteration, so the gradient used by
the optimizer step is exactly the current batch's gradient at the current
weights, and the iteration's outcome is independent of whatever gradient
buffer a previous batch left behind. -/
theorem claim_C4_no_grad_accumulation (lr : ℚ) (gradOf : List ℚ → List ℚ)
    (s : SGDState) (g' : List ℚ)
    (hg : s.g.length = s.w.length) (hg' : g'.length = s.w.length)
    (hlen : ∀ w : List ℚ, (gradOf w).length = w.length) :
    (trainingStep lr gradOf s).g = gradOf s.w
      ∧ trainingStep lr gradOf s = trainingStep lr gradOf ⟨s.w, g'⟩ := by
  have h1 := trainingStep_eq lr gradOf s hg hlen
  have h2 := trainingStep_eq lr gradOf ⟨s.w, g'⟩ hg' hlen
  constructor
  · rw [h1]
  · rw [h1, h2]

theorem claim_C4_witness :
    ([(5 : ℚ)] : List ℚ).length = ([(2 : ℚ)] : List ℚ).length
      ∧ ((trainingStep 1 (fun w => w) ⟨[2], [5]⟩).g = [(2 : ℚ)]
          ∧ trainingStep 1 (fun w => w) ⟨[2], [5]⟩
              = trainingStep 1 (fun w => w) ⟨[2], [7]⟩) :=
  ⟨rfl, claim_C4_no_grad_accumulation 1 (fun w => w) ⟨[2], [5]⟩ [7] rfl rfl
    (fun _ => rfl)⟩

/-- Claim C7: constructing the classifier with a non-positive input or
output dimension, or with a hidden width equal to zero, fails with a
configuration error (modelled from the spec: `fc_model.py` is missing from
the sources and §4.1 requires construction to fail on such configurations). -/
theorem claim_C7_invalid_config (i o : Int) (h : List Int) (p : ℚ)
    (hbad : i ≤ 0 ∨ o ≤ 0 ∨ (0 : Int) ∈ h) :
    Network.build i o h p = none := by
  unfold Network.build
  rw [if_pos hbad]

theorem claim_C7_witness :
    ((0 : Int) ≤ 0 ∨ (10 : Int) ≤ 0 ∨ (0 : Int) ∈ ([5] : List Int))
      ∧ Network.build 0 10 [5] (1 / 2) = none
      ∧ Network.build 784 10 [5, 0] (1 / 2) = none :=
  ⟨Or.inl le_rfl,
    claim_C7_invalid_config 0 10 [5] (1 / 2) (Or.inl le_rfl),
    claim_C7_invalid_config 784 10 [5, 0] (1 / 2) (Or.inr (Or.inr (by decide)))⟩

/-- Claim C8: the checkpoint written by the part_001 save cell is a mapping
whose keys are exactly `input_size` (an integer), `output_size` (an
integer), `hidden_layers` (the ordered list of hidden widths), and
`state_dict` (the mapping from parameter name to tensor); the file I/O of
`torch.save` is modelled as holding this record value at the given path. -/
theorem claim_C8_checkpoint_keys (m : Network) :
    (checkpoint m).map Prod.fst
        = ["input_size", "output_size", "hidden_layers", "state_dict"]
      ∧ ckptGet (checkpoint m) "input_size" = some (.int 784)
      ∧ ckptGet (checkpoint m) "output_size" = some (.int 10)
      ∧ ckptGet (checkpoint m) "hidden_layers" = some (.list m.hidden_layers)
      ∧ ckptGet (checkpoint m) "state_dict" = some (.sdict m.state_dict) :=
  ⟨rfl, rfl, rfl, rfl, rfl⟩

/-- Claim C1: saving a checkpoint of a trained model and loading it back
with `load_checkpoint` yields a model whose forward pass (evaluation mode)
is exactly the original's — over ℚ the parameters round-trip without loss.
The part_001 checkpoint cell hard-codes `input_size`/`output_size` as
784/10, the configuration of every model the notebooks train, so the
round-trip is stated for models of that configuration. -/
theorem claim_C1_save_load_roundtrip (m : Network) (hwf : m.wf = true)
    (hi : m.input_size = 784) (ho : m.output_size = 10) :
    load_checkpoint (checkpoint m) = some { m with drop_p := 1 / 2 }
      ∧ Network.evalForward { m with drop_p := 1 / 2 } = Network.evalForward m :=
  ⟨load_checkpoint_roundtrip m hwf hi ho, rfl⟩

set_option maxRecDepth 10000 in
theorem claim_C1_witness :
    mWit784.wf = true
      ∧ load_checkpoint (checkpoint mWit784) = some { mWit784 with drop_p := 1 / 2 }
      ∧ Network.evalForward { mWit784 with drop_p := 1 / 2 }
          = Network.evalForward mWit784 :=
  ⟨by decide, (claim_C1_save_load_roundtrip mWit784 (by decide) rfl rfl).1,
    (claim_C1_save_load_roundtrip mWit784 (by decide) rfl rfl).2⟩

/-- Claim C9: the checkpoint record omits the dropout probability — its
keys are only the four fields — and `load_checkpoint` reconstructs the
network from (input_size, output_size, hidden_layers) alone, so the loaded
model always carries the constructor's default dropout probability 0.5,
whatever `drop_p` the saved model was configured with (modelled from the
spec and the printed loaded module, `Dropout(p=0.5)`). -/
theorem claim_C9_dropout_not_saved (m : Network) (hwf : m.wf = true)
    (hi : m.input_size = 784) (ho : m.output_size = 10) :
    (checkpoint m).map Prod.fst
        = ["input_size", "output_size", "hidden_layers", "state_dict"]
      ∧ load_checkpoint (checkpoint m) = some { m with drop_p := 1 / 2 } :=
  ⟨rfl, load_checkpoint_roundtrip m hwf hi ho⟩

set_option maxRecDepth 10000 in
theorem claim_C9_witness :
    mWit784b.wf = true
      ∧ mWit784b.drop_p = 1 / 3
      ∧ load_checkpoint (checkpoint mWit784b)
          = some { mWit784b with drop_p := 1 / 2 } :=
  ⟨by decide, rfl, (claim_C9_dropout_not_saved mWit784b (by decide) rfl rfl).2⟩

theorem length_sdHidden : ∀ (j : Nat) (ls : List Linear),
    (sdHidden j ls).length = 2 * ls.length := by
  intro j ls
  induction ls generalizing j with
  | nil => rfl
  | cons l t ih =>
      simp only [sdHidden, List.length_cons, ih (j + 1)]
      omega

/-- Matching state-dict signatures force equal hidden width lists: the bias
entry of layer `i` has shape `[width i]`. -/
theorem sdSig_sizes : ∀ (lsA lsB : List Linear) (j : Nat)
    (tA tB : List (String × Tensor)),
    (∀ l ∈ lsA, l.bias.length = l.outF) → (∀ l ∈ lsB, l.bias.length = l.outF) →
    lsA.length = lsB.length →
    sdSig (sdHidden j lsA ++ tA) = sdSig (sdHidden j lsB ++ tB) →
    lsA.map Linear.outF = lsB.map Linear.outF := by
  intro lsA
  induction lsA with
  | nil =>
      intro lsB j tA tB _ _ hlen _
      cases lsB with
      | nil => rfl
      | cons b bs => simp at hlen
  | cons a as ih =>
      intro lsB j tA tB hA hB hlen hsig
      cases lsB with
      | nil => simp at hlen
      | cons b bs =>
          simp only [sdHidden, List.cons_append, sdSig, List.map_cons,
            List.cons.injEq, Prod.mk.injEq] at hsig
          obtain ⟨-, ⟨-, hbs⟩, hrest⟩ := hsig
          have hlens : a.bias.length = b.bias.length := by simpa [tshape] using hbs
          have houts : a.outF = b.outF := by
            rw [← hA a (by simp), ← hB b (by simp)]
            exact hlens
          simp only [List.map_cons, houts, List.cons.injEq, true_and]
          exact ih bs (j + 1) tA tB (fun l hl => hA l (List.mem_cons_of_mem a hl))
            (fun l hl => hB l (List.mem_cons_of_mem b hl)) (by simpa using hlen) hrest

/-- Claim C2: restoring a checkpointed state dict into a classifier built
with a different hidden-layer configuration raises a shape-mismatch error
(`none`): the strict key-and-shape check of `load_state_dict` cannot accept
it, so parameters are never silently truncated or padded. -/
theorem claim_C2_mismatch_rejected (mA mB : Network)
    (hA : mA.wf = true) (hB : mB.wf = true)
    (hne : mA.hidden_layers ≠ mB.hidden_layers) :
    mB.load_state_dict mA.state_dict = none := by
  have biasA : ∀ l ∈ mA.hiddenLins, l.bias.length = l.outF := fun l hl =>
    (linWF_parts ((linsChainWF_mem _ _ (wf_parts hA).2.2.1 l hl).1)).2.2
  have biasB : ∀ l ∈ mB.hiddenLins, l.bias.length = l.outF := fun l hl =>
    (linWF_parts ((linsChainWF_mem _ _ (wf_parts hB).2.2.1 l hl).1)).2.2
  unfold Network.load_state_dict
  rw [if_neg]
  intro hsig
  apply hne
  have hlen : mB.hiddenLins.length = mA.hiddenLins.length := by
    have hl := congrArg List.length hsig
    simp only [sdSig, List.length_map, Network.state_dict, List.length_append,
      length_sdHidden, List.length_cons, List.length_nil] at hl
    omega
  have hsizes : mB.hiddenLins.map Linear.outF = mA.hiddenLins.map Linear.outF :=
    sdSig_sizes mB.hiddenLins mA.hiddenLins 0 _ _ biasB biasA hlen
      (by simpa [Network.state_dict] using hsig)
  simp only [Network.hidden_layers]
  have hmaps := congrArg (List.map Int.ofNat) hsizes
  rw [List.map_map, List.map_map] at hmaps
  exact hmaps.symm

theorem claim_C2_witness :
    mWitA.wf = true ∧ mWitB.wf = true
      ∧ mWitA.hidden_layers ≠ mWitB.hidden_layers
      ∧ mWitB.load_state_dict mWitA.state_dict = none :=
  ⟨by decide, by decide, by decide,
    claim_C2_mismatch_rejected mWitA mWitB (by decide) (by decide) (by decide)⟩

/-- Claim C10: the loop divides `running_loss` by the constant
`print_every = 40` while `running_loss` is reset at each epoch start but
`steps` is not; with 938 mini-batches per epoch (MNIST train, batch 64),
the first report of epoch 2 averages only 22 batches and that of epoch 3
only 4 — both fewer than 40 — so dividing their sums by 40 under-reports
the true per-batch loss whenever the summed losses are positive. -/
theorem claim_C10_first_report_short :
    firstReportOf 2 (reportLoop 40 938 3) = some 22
      ∧ firstReportOf 3 (reportLoop 40 938 3) = some 4
      ∧ 22 < 40 ∧ 4 < 40
      ∧ ∀ S : ℚ, 0 < S → S / 40 < S / 22 ∧ S / 40 < S / 4 := by
  obtain ⟨R1, L2, L3, hsh, h1, h2, h3⟩ := reportLoop_shape
  have hsh' : (reportLoop 40 938 3).reports
      = R1 ++ ((2, 22) :: (L2 ++ ((3, 4) :: L3))) := by
    rw [hsh]
    simp [List.append_assoc]
  refine ⟨?_, ?_, by norm_num, by norm_num, ?_⟩
  · unfold firstReportOf
    rw [hsh', find?_append_of_none (fun p hp => by simp [h1 p hp]),
      List.find?_cons_of_pos _ (by simp)]
    rfl
  · unfold firstReportOf
    rw [hsh', find?_append_of_none (fun p hp => by simp [h1 p hp]),
      List.find?_cons_of_neg _ (by simp),
      find?_append_of_none (fun p hp => by simp [h2 p hp]),
      List.find?_cons_of_pos _ (by simp)]
    rfl
  · intro S hS
    constructor
    · exact div_lt_div_of_pos_left hS (by norm_num) (by norm_num)
    · exact div_lt_div_of_pos_left hS (by norm_num) (by norm_num)

theorem claim_C10_witness :
    firstReportOf 2 (reportLoop 40 938 3) = some 22
      ∧ (0 : ℚ) < 1 ∧ (1 : ℚ) / 40 < 1 / 22 :=
  ⟨claim_C10_first_report_short.1, by norm_num,
    (claim_C10_first_report_short.2.2.2.2 1 (by norm_num)).1⟩

end DLPyTorch
